import Mathlib

/-!
Verification of the bounded-concurrency SSH command runner
(src/ParallelSSH.py) against its natural-language specification.

The Python class `ParallelSSH` runs one shell command over SSH against a
list of hosts, keeping at most `max_procs` subprocesses alive at once,
optionally killing processes that exceed a wall-clock `timeout`, and
classifying each host into a success record or a failure record.

Shallow embedding conventions:
* A subprocess is modelled by a `ProcBehavior` supplied by a `BatchEnv`:
  `duration` is the wall-clock time after launch at which `Popen.poll`
  first reports an exit code (`none` means the process never exits on its
  own), `exitCode` the code it exits with, and `outBytes`/`errBytes` the
  captured stdout/stderr byte streams returned by `communicate`.
* Wall-clock time is a natural-number counter carried in the loop state;
  the clock is read once per scan pass and advances by `BatchEnv.tick`
  after each pass over the run set (one polling interval).
* Python exceptions escaping `run_cmd` (the strict UTF-8 decode in
  `__append_success`) are modelled with `Except BatchError`.
* The unbounded `while` loops of `run_cmd` are modelled with an explicit
  fuel parameter; a result of `none` means the loop was still running
  after `fuel` iterations.
* Alongside its result, the loop model returns a list of `Snap`shots
  (live run-set size, launch-queue length), sampled at batch start, after
  every launch and after every scan pass, so that properties about
  "every point during a batch" can be stated.
-/

/-- Captured behaviour of the subprocess spawned for one host: when it
exits relative to its launch time (`none` = never), with which exit code,
and which stdout/stderr bytes `communicate` returns. -/
structure ProcBehavior where
  duration : Option Nat
  exitCode : Int
  outBytes : List Nat
  errBytes : List Nat

/-- Environment of one batch: per-host subprocess behaviour for the fixed
remote command, plus the wall-clock time elapsing during one scan pass. -/
structure BatchEnv where
  behavior : String → ProcBehavior
  tick : Nat

/-- One element of `running_procs`: the Python code stores
`[Popen-handle, start_time]`; the handle determines the host
(`process.args[3]`), so the entry is the host name plus launch time. -/
structure RunEntry where
  host : String
  startTime : Nat
deriving DecidableEq

/-- A tuple appended to `self.cmd_successes`:
`(hostname, stdout-decoded, stderr-decoded, returncode)`.  Decoded text
is represented as the list of Unicode code points. -/
structure SuccessRec where
  host : String
  stdoutText : List Nat
  stderrText : List Nat
  returncode : Int
deriving DecidableEq

/-- A tuple appended to `self.cmd_failures`:
`(hostname, error-message, returncode-or-None)`. -/
structure FailureRec where
  host : String
  error : String
  returncode : Option Int
deriving DecidableEq

/-- The exception that can escape `run_cmd`: `bytes.decode("UTF-8")`
raising `UnicodeDecodeError` on malformed input. -/
inductive BatchError where
  | decodeError
deriving DecidableEq

/-- A sampled instant of a batch: number of live (non-`None`) entries in
`running_procs` and number of commands still waiting in `cmds_to_run`. -/
structure Snap where
  liveCount : Nat
  queueLen : Nat
deriving DecidableEq

/-- Is `b` a UTF-8 continuation byte (`0x80..0xBF`)? -/
def utf8IsCont (b : Nat) : Bool :=
  decide (0x80 ≤ b ∧ b ≤ 0xBF)

/-- Strict UTF-8 decoding of a byte list into code points, exactly as
Python `bytes.decode("UTF-8")` with the default `errors="strict"`:
`none` models a raised `UnicodeDecodeError` (overlong encodings,
surrogates and out-of-range sequences are all rejected). -/
def utf8DecodeBytes : List Nat → Option (List Nat)
  | [] => some []
  | b :: rest =>
    if b ≤ 0x7F then
      match utf8DecodeBytes rest with
      | some cs => some (b :: cs)
      | none => none
    else if 0xC2 ≤ b ∧ b ≤ 0xDF then
      match rest with
      | c1 :: rest1 =>
        if utf8IsCont c1 then
          match utf8DecodeBytes rest1 with
          | some cs => some (((b - 0xC0) * 0x40 + (c1 - 0x80)) :: cs)
          | none => none
        else none
      | [] => none
    else if 0xE0 ≤ b ∧ b ≤ 0xEF then
      match rest with
      | c1 :: c2 :: rest2 =>
        if (if b = 0xE0 then decide (0xA0 ≤ c1 ∧ c1 ≤ 0xBF)
            else if b = 0xED then decide (0x80 ≤ c1 ∧ c1 ≤ 0x9F)
            else utf8IsCont c1) && utf8IsCont c2 then
          match utf8DecodeBytes rest2 with
          | some cs =>
            some (((b - 0xE0) * 0x1000 + (c1 - 0x80) * 0x40 + (c2 - 0x80)) :: cs)
          | none => none
        else none
      | _ => none
    else if 0xF0 ≤ b ∧ b ≤ 0xF4 then
      match rest with
      | c1 :: c2 :: c3 :: rest3 =>
        if (if b = 0xF0 then decide (0x90 ≤ c1 ∧ c1 ≤ 0xBF)
            else if b = 0xF4 then decide (0x80 ≤ c1 ∧ c1 ≤ 0x8F)
            else utf8IsCont c1) && utf8IsCont c2 && utf8IsCont c3 then
          match utf8DecodeBytes rest3 with
          | some cs =>
            some (((b - 0xF0) * 0x40000 + (c1 - 0x80) * 0x1000
                  + (c2 - 0x80) * 0x40 + (c3 - 0x80)) :: cs)
          | none => none
        else none
      | _ => none
    else none

/-- `__append_success`: decode stdout and stderr strictly as UTF-8 and
build the success tuple; a malformed byte stream raises
(`BatchError.decodeError`), aborting the batch. -/
def appendSuccess (host : String) (outB errB : List Nat) (rc : Int) :
    Except BatchError SuccessRec :=
  match utf8DecodeBytes outB, utf8DecodeBytes errB with
  | some o, some e => .ok ⟨host, o, e, rc⟩
  | _, _ => .error .decodeError

/-- `Popen.poll()` at wall-clock time `now` for a process launched at
`startTime`: the exit code once the process has finished, else `none`. -/
def pollAt (b : ProcBehavior) (startTime now : Nat) : Option Int :=
  match b.duration with
  | none => none
  | some d => if startTime + d ≤ now then some b.exitCode else none

/-- The Python test
`datetime.now() >= start_time + timedelta(seconds=self.timeout)`,
guarded by `if not self.timeout == None`. -/
def timeoutDue (timeout : Option Int) (startTime now : Nat) : Bool :=
  match timeout with
  | none => false
  | some t => decide ((startTime : Int) + t ≤ (now : Int))

/-- Outcome of running the body of the `for i in range(...)` loop on one
entry of `running_procs`: the new value of the slot `running_procs[i]`,
the records appended to the two result lists, and whether `proc.kill()`
was called. -/
structure ClassifyResult where
  slot : Option RunEntry
  newSuccesses : List SuccessRec
  newFailures : List FailureRec
  killed : Bool
deriving DecidableEq

/-- Body of the `for` loop of `run_cmd` (lines 114-128) for one entry.
Note the two tests are independent `if` statements in the source, not
`if`/`elif`: after the completion branch fires, the timeout test is still
evaluated for the same entry. -/
def classifyEntry (env : BatchEnv) (timeout : Option Int) (expected : Int)
    (now : Nat) (e : RunEntry) : Except BatchError ClassifyResult :=
  let b := env.behavior e.host
  let step1 : Except BatchError (Option RunEntry × List SuccessRec × List FailureRec) :=
    match pollAt b e.startTime now with
    | some rc =>
      if rc = expected then
        match appendSuccess e.host b.outBytes b.errBytes rc with
        | .ok s => .ok (none, [s], [])
        | .error er => .error er
      else
        .ok (none, [], [⟨e.host, "Unexpected Return Code", some rc⟩])
    | none => .ok (some e, [], [])
  match step1 with
  | .error er => .error er
  | .ok (slot1, succ1, fail1) =>
    if timeoutDue timeout e.startTime now then
      .ok ⟨none, succ1, fail1 ++ [⟨e.host, "Timeout Exceeded", none⟩], true⟩
    else
      .ok ⟨slot1, succ1, fail1, false⟩

/-- One slot of `running_procs` during a scan pass.  The inner `while`
exits as soon as a `None` slot exists, so the `none` case can never be
reached by the loop; it is given the no-op behaviour. -/
def scanSlot (env : BatchEnv) (timeout : Option Int) (expected : Int)
    (now : Nat) : Option RunEntry → Except BatchError ClassifyResult
  | none => .ok ⟨none, [], [], false⟩
  | some e => classifyEntry env timeout expected now e

/-- One full `for i in range(0, len(running_procs))` pass: every slot is
observed in order; a raised decode error aborts the pass (and the batch)
at the offending entry, as a Python exception would. -/
def scanPass (env : BatchEnv) (timeout : Option Int) (expected : Int)
    (now : Nat) : List (Option RunEntry) →
    Except BatchError (List (Option RunEntry) × List SuccessRec × List FailureRec)
  | [] => .ok ([], [], [])
  | s :: rest =>
    match scanSlot env timeout expected now s with
    | .error er => .error er
    | .ok r =>
      match scanPass env timeout expected now rest with
      | .error er => .error er
      | .ok (rest', su, fa) =>
        .ok (r.slot :: rest', r.newSuccesses ++ su, r.newFailures ++ fa)

/-- Number of live (non-`None`) slots in `running_procs`. -/
def liveCount (l : List (Option RunEntry)) : Nat :=
  (l.filter (fun s => s.isSome)).length

/-- The refill loop
`while len(running_procs) < self.max_procs and len(cmds_to_run) > 0`,
unrolled on an iteration counter: each iteration pops the LAST waiting
host (`cmds_to_run.pop()` — LIFO) and appends a freshly launched entry.
The loop runs at most `cmds.length` times since `cmds_to_run` shrinks at
every iteration, so the counter is initialised to `cmds.length` by
`refill`.  A `Snap` is recorded after every launch. -/
def refillAux (maxProcs : Int) (now : Nat) :
    Nat → List String → List (Option RunEntry) →
    List String × List (Option RunEntry) × List Snap
  | 0, cmds, running => (cmds, running, [])
  | n + 1, cmds, running =>
    if (running.length : Int) < maxProcs ∧ cmds ≠ [] then
      match cmds.getLast? with
      | some host =>
        let running' := running ++ [some ⟨host, now⟩]
        let rest := refillAux maxProcs now n cmds.dropLast running'
        (rest.1, rest.2.1, ⟨liveCount running', cmds.dropLast.length⟩ :: rest.2.2)
      | none => (cmds, running, [])
    else (cmds, running, [])

/-- Admission control step of `run_cmd` (lines 103-105). -/
def refill (maxProcs : Int) (now : Nat) (cmds : List String)
    (running : List (Option RunEntry)) :
    List String × List (Option RunEntry) × List Snap :=
  refillAux maxProcs now cmds.length cmds running

/-- The inner `while not None in running_procs` loop (lines 113-128):
repeat scan passes until some slot has been set to `None`; the clock
advances by one `tick` after each pass.  Returns `none` when `fuel`
passes did not make the loop exit (the Python loop is still spinning),
paired with the snapshots taken after each pass. -/
def innerLoop (env : BatchEnv) (timeout : Option Int) (expected : Int)
    (queueLen : Nat) :
    Nat → List (Option RunEntry) → List SuccessRec → List FailureRec → Nat →
    Option (Except BatchError
      (List (Option RunEntry) × List SuccessRec × List FailureRec × Nat)) × List Snap
  | 0, _, _, _, _ => (none, [])
  | fuel + 1, slots, succ, fail, now =>
    if (none : Option RunEntry) ∈ slots then
      (some (.ok (slots, succ, fail, now)), [])
    else
      match scanPass env timeout expected now slots with
      | .error er => (some (.error er), [])
      | .ok (slots', su, fa) =>
        let rest := innerLoop env timeout expected queueLen fuel slots'
          (succ ++ su) (fail ++ fa) (now + env.tick)
        (rest.1, ⟨liveCount slots', queueLen⟩ :: rest.2)

/-- The outer `while True` loop of `run_cmd` (lines 101-130): refill the
run set, exit when both the launch queue and the run set are empty,
otherwise run the inner loop and strip the `None` slots
(`[x for x in running_procs if x is not None]`). -/
def outerLoop (env : BatchEnv) (timeout : Option Int) (expected : Int)
    (maxProcs : Int) :
    Nat → List String → List (Option RunEntry) → List SuccessRec →
    List FailureRec → Nat →
    Option (Except BatchError (List SuccessRec × List FailureRec)) × List Snap
  | 0, _, _, _, _, _ => (none, [])
  | fuel + 1, cmds, running, succ, fail, now =>
    let rf := refill maxProcs now cmds running
    if rf.2.1 = [] ∧ rf.1 = [] then
      (some (.ok (succ, fail)), rf.2.2)
    else
      let inr := innerLoop env timeout expected rf.1.length fuel rf.2.1 succ fail now
      match inr.1 with
      | none => (none, rf.2.2 ++ inr.2)
      | some (.error er) => (some (.error er), rf.2.2 ++ inr.2)
      | some (.ok (slots, succ2, fail2, now2)) =>
        let rest := outerLoop env timeout expected maxProcs fuel rf.1
          (slots.filter (fun s => s.isSome)) succ2 fail2 now2
        (rest.1, rf.2.2 ++ inr.2 ++ rest.2)

/-- `run_cmd(remote_cmd, expected_exit_code)` for one batch:
`cmd_successes` and `cmd_failures` are reset to empty, `cmds_to_run` is
built from the host list, `running_procs` starts empty, and the
supervisor loop runs.  The result is the final pair of result lists
(`none` if `fuel` outer iterations did not finish the batch, `.error` if
a UTF-8 decode aborted it), plus all snapshots, starting with the batch
entry snapshot. -/
def runCmd (env : BatchEnv) (maxProcs : Int) (timeout : Option Int)
    (hostlist : List String) (expected : Int) (fuel : Nat) :
    Option (Except BatchError (List SuccessRec × List FailureRec)) × List Snap :=
  let r := outerLoop env timeout expected maxProcs fuel hostlist [] [] [] 0
  (r.1, ⟨0, hostlist.length⟩ :: r.2)

/-- Result of `ssh -V` probing as seen by `__check_ssh`: whether the
configured path is a regular file, the probe's exit code, and its
combined stdout+stderr output. -/
structure SshEnv where
  pathIsFile : Bool
  versionExit : Int
  versionOutput : String

/-- The `ParallelSSH` object: configuration plus the two result-list
fields, which the constructor initialises to Python `None`. -/
structure ParallelSSH where
  sshBin : String
  maxProcs : Int
  timeout : Option Int
  hostlist : List String
  cmdSuccesses : Option (List SuccessRec)
  cmdFailures : Option (List FailureRec)

/-- Does `pat` occur as a contiguous run inside `l`?  (Python `in` on
strings.) -/
def leadMatch : List Char → List Char → Bool
  | [], _ => true
  | _ :: _, [] => false
  | a :: as, b :: bs => a == b && leadMatch as bs

/-- Python `pat in s` over character lists. -/
def containsSub (pat : List Char) : List Char → Bool
  | [] => leadMatch pat []
  | c :: rest => leadMatch pat (c :: rest) || containsSub pat rest

/-- `"openssh" in ssh_ver.lower()`. -/
def hasOpensshSub (s : String) : Bool :=
  containsSub "openssh".toList (s.toList.map Char.toLower)

/-- `__check_ssh` (lines 49-64): raise unless the configured path is a
file, `ssh -V` exits 0 and prints something containing "openssh"
(case-insensitively). -/
def checkSsh (sshBin : String) (e : SshEnv) : Except String Unit :=
  if !e.pathIsFile then
    .error ("Expected SSH path is missing: " ++ sshBin)
  else if !(e.versionExit == 0) then
    .error (sshBin ++ " -V returned non-zero exit code")
  else if e.versionOutput.length < 1 then
    .error ("No output from " ++ sshBin ++ " -V")
  else if !hasOpensshSub e.versionOutput then
    .error ("Expecting OpenSSH implementation: " ++ sshBin ++ " -V reported " ++ e.versionOutput)
  else
    .ok ()

/-- `__init__` (lines 23-39): `__check_ssh` runs before any field other
than `ssh_bin` is set; a failed check raises, so no object (and hence no
batch) can exist.  On success `cmd_successes` and `cmd_failures` start as
Python `None`. -/
def initParallelSSH (maxProcs : Int) (timeout : Option Int)
    (hostlist : List String) (sshBin : String) (e : SshEnv) :
    Except String ParallelSSH :=
  match checkSsh sshBin e with
  | .error msg => .error msg
  | .ok _ => .ok ⟨sshBin, maxProcs, timeout, hostlist, none, none⟩

/-- `run_cmd` as a method: reads only the configuration fields of the
object, overwrites `cmd_successes`/`cmd_failures` with the fresh batch
results. -/
def runCmdMethod (p : ParallelSSH) (env : BatchEnv) (expected : Int)
    (fuel : Nat) : Option (Except BatchError ParallelSSH) :=
  match (runCmd env p.maxProcs p.timeout p.hostlist expected fuel).1 with
  | none => none
  | some (.error er) => some (.error er)
  | some (.ok (s, f)) =>
    some (.ok { p with cmdSuccesses := some s, cmdFailures := some f })

/-- Multiset of hosts of the live entries of `running_procs`. -/
def liveHosts (l : List (Option RunEntry)) : Multiset String :=
  ↑(l.filterMap (fun s => s.map RunEntry.host))

/-- Multiset of hosts mentioned in a success list. -/
def succHosts (l : List SuccessRec) : Multiset String :=
  ↑(l.map SuccessRec.host)

/-- Multiset of hosts mentioned in a failure list. -/
def failHosts (l : List FailureRec) : Multiset String :=
  ↑(l.map FailureRec.host)

/-- The spec bound at one sampled instant: the live run-set size is at
most `min max_procs (targets not yet classified)`, where the targets not
yet classified are exactly those still queued or still running. -/
def snapWithin (maxProcs : Int) (s : Snap) : Bool :=
  decide ((s.liveCount : Int) ≤ min maxProcs ((s.liveCount : Int) + (s.queueLen : Int)))

/-- Is this failure record a timeout classification? -/
def isTimeoutRec (f : FailureRec) : Bool :=
  f.error == "Timeout Exceeded"

/-- No record in the list is a timeout failure. -/
def noTimeoutFail (l : List FailureRec) : Bool :=
  l.all (fun f => !(isTimeoutRec f))

/-- Environment where every process exits immediately with code 0 and
empty output, clock advancing 1 per pass. -/
def envUnitDone : BatchEnv :=
  ⟨fun _ => ⟨some 0, 0, [], []⟩, 1⟩

/-- Environment where every process exits 8 time units after launch but
the scan pass only samples the clock every 10 units, so completion is
first observed after a 5-unit deadline has already passed. -/
def envLateDone : BatchEnv :=
  ⟨fun _ => ⟨some 8, 0, [], []⟩, 10⟩

/-- Environment where every process exits immediately with code 0 but
stdout is the byte 0xFF, which is not valid UTF-8. -/
def envBadBytes : BatchEnv :=
  ⟨fun _ => ⟨some 0, 0, [0xFF], []⟩, 1⟩

/-- Environment where no process ever exits on its own. -/
def envNeverDone : BatchEnv :=
  ⟨fun _ => ⟨none, 0, [], []⟩, 1⟩

/-! ## Basic lemmas about the host-multiset measures -/

@[simp] theorem liveHosts_nil : liveHosts [] = 0 := rfl

@[simp] theorem liveHosts_cons_some (e : RunEntry) (l : List (Option RunEntry)) :
    liveHosts (some e :: l) = e.host ::ₘ liveHosts l := by
  simp [liveHosts, Multiset.cons_coe]

@[simp] theorem liveHosts_cons_none (l : List (Option RunEntry)) :
    liveHosts (none :: l) = liveHosts l := by
  simp [liveHosts]

@[simp] theorem succHosts_nil : succHosts [] = 0 := rfl

@[simp] theorem failHosts_nil : failHosts [] = 0 := rfl

@[simp] theorem succHosts_append (a b : List SuccessRec) :
    succHosts (a ++ b) = succHosts a + succHosts b := by
  simp [succHosts, ← Multiset.coe_add]

@[simp] theorem failHosts_append (a b : List FailureRec) :
    failHosts (a ++ b) = failHosts a + failHosts b := by
  simp [failHosts, ← Multiset.coe_add]

@[simp] theorem succHosts_cons (s : SuccessRec) (l : List SuccessRec) :
    succHosts (s :: l) = s.host ::ₘ succHosts l := by
  simp [succHosts, Multiset.cons_coe]

@[simp] theorem failHosts_cons (f : FailureRec) (l : List FailureRec) :
    failHosts (f :: l) = f.host ::ₘ failHosts l := by
  simp [failHosts, Multiset.cons_coe]

theorem liveHosts_filter_isSome (l : List (Option RunEntry)) :
    liveHosts (l.filter (fun s => s.isSome)) = liveHosts l := by
  induction l with
  | nil => rfl
  | cons s rest ih =>
    cases s with
    | none => simpa [List.filter] using ih
    | some e => simpa [List.filter] using ih

theorem appendSuccess_ok_fields (host : String) (outB errB : List Nat)
    (rc : Int) (s : SuccessRec)
    (h : appendSuccess host outB errB rc = .ok s) :
    s.host = host ∧ s.returncode = rc := by
  unfold appendSuccess at h
  cases ho : utf8DecodeBytes outB with
  | none => rw [ho] at h; exact absurd h (by simp)
  | some o =>
    cases he : utf8DecodeBytes errB with
    | none => rw [ho, he] at h; exact absurd h (by simp)
    | some e =>
      rw [ho, he] at h
      cases h
      exact ⟨rfl, rfl⟩

/-! ## Per-entry classification lemmas -/

theorem classifyEntry_none_timeout (env : BatchEnv) (expected : Int)
    (now : Nat) (e : RunEntry) (r : ClassifyResult)
    (h : classifyEntry env none expected now e = .ok r) :
    (r.slot = some e ∧ r.newSuccesses = [] ∧ r.newFailures = [])
    ∨ (r.slot = none ∧
        succHosts r.newSuccesses + failHosts r.newFailures = {e.host}) := by
  unfold classifyEntry at h
  simp only [timeoutDue] at h
  cases hp : pollAt (env.behavior e.host) e.startTime now with
  | none =>
    rw [hp] at h
    simp at h
    left
    rw [← h]
    exact ⟨rfl, rfl, rfl⟩
  | some rc =>
    rw [hp] at h
    by_cases hrc : rc = expected
    · subst hrc
      simp at h
      cases ha : appendSuccess e.host (env.behavior e.host).outBytes
          (env.behavior e.host).errBytes rc with
      | error er => rw [ha] at h; exact absurd h (by simp)
      | ok s =>
        rw [ha] at h
        simp only [Except.ok.injEq] at h
        right
        obtain ⟨hh, _⟩ := appendSuccess_ok_fields _ _ _ _ _ ha
        rw [← h]
        exact ⟨rfl, by simp [hh]⟩
    · simp [hrc] at h
      right
      rw [← h]
      exact ⟨rfl, by simp⟩

theorem classifyEntry_no_timeout_rec (env : BatchEnv) (expected : Int)
    (now : Nat) (e : RunEntry) (r : ClassifyResult)
    (h : classifyEntry env none expected now e = .ok r) :
    noTimeoutFail r.newFailures = true := by
  unfold classifyEntry at h
  simp only [timeoutDue] at h
  cases hp : pollAt (env.behavior e.host) e.startTime now with
  | none =>
    rw [hp] at h
    simp at h
    rw [← h]
    rfl
  | some rc =>
    rw [hp] at h
    by_cases hrc : rc = expected
    · subst hrc
      simp at h
      cases ha : appendSuccess e.host (env.behavior e.host).outBytes
          (env.behavior e.host).errBytes rc with
      | error er => rw [ha] at h; exact absurd h (by simp)
      | ok s =>
        rw [ha] at h
        simp only [Except.ok.injEq] at h
        rw [← h]
        rfl
    · simp [hrc] at h
      rw [← h]
      rfl

/-! ## Scan-pass lemmas -/

theorem noTimeoutFail_append (a b : List FailureRec) :
    noTimeoutFail (a ++ b) = (noTimeoutFail a && noTimeoutFail b) := by
  simp [noTimeoutFail]

theorem scanPass_length (env : BatchEnv) (timeout : Option Int)
    (expected : Int) (now : Nat) :
    ∀ (slots slots' : List (Option RunEntry)) su fa,
    scanPass env timeout expected now slots = .ok (slots', su, fa) →
    slots'.length = slots.length := by
  intro slots
  induction slots with
  | nil =>
    intro slots' su fa h
    simp only [scanPass, Except.ok.injEq, Prod.mk.injEq] at h
    rw [← h.1]
  | cons s rest ih =>
    intro slots' su fa h
    simp only [scanPass] at h
    cases hs : scanSlot env timeout expected now s with
    | error er => rw [hs] at h; exact absurd h (by simp)
    | ok r =>
      rw [hs] at h
      cases hrec : scanPass env timeout expected now rest with
      | error er => rw [hrec] at h; exact absurd h (by simp)
      | ok res =>
        obtain ⟨rest', su2, fa2⟩ := res
        rw [hrec] at h
        simp only [Except.ok.injEq, Prod.mk.injEq] at h
        rw [← h.1]
        simp [ih rest' su2 fa2 hrec]

theorem scanPass_conserve (env : BatchEnv) (expected : Int) (now : Nat) :
    ∀ (slots slots' : List (Option RunEntry)) su fa,
    scanPass env none expected now slots = .ok (slots', su, fa) →
    liveHosts slots = liveHosts slots' + succHosts su + failHosts fa := by
  intro slots
  induction slots with
  | nil =>
    intro slots' su fa h
    simp only [scanPass, Except.ok.injEq, Prod.mk.injEq] at h
    obtain ⟨h1, h2, h3⟩ := h
    subst h1; subst h2; subst h3
    simp
  | cons s rest ih =>
    intro slots' su fa h
    simp only [scanPass] at h
    cases hs : scanSlot env none expected now s with
    | error er => rw [hs] at h; exact absurd h (by simp)
    | ok r =>
      rw [hs] at h
      cases hrec : scanPass env none expected now rest with
      | error er => rw [hrec] at h; exact absurd h (by simp)
      | ok res =>
        obtain ⟨rest', su2, fa2⟩ := res
        rw [hrec] at h
        simp only [Except.ok.injEq, Prod.mk.injEq] at h
        obtain ⟨h1, h2, h3⟩ := h
        subst h1; subst h2; subst h3
        have ihr := ih rest' su2 fa2 hrec
        cases s with
        | none =>
          have hr : r = ⟨none, [], [], false⟩ := by
            have := hs
            simp [scanSlot] at this
            rw [← this]
          subst hr
          simpa using ihr
        | some e =>
          have hc : classifyEntry env none expected now e = .ok r := hs
          rcases classifyEntry_none_timeout env expected now e r hc with
            ⟨hslot, hsu, hfa⟩ | ⟨hslot, hsum⟩
          · rw [hslot, hsu, hfa]
            simp [ihr, Multiset.cons_add]
          · rw [hslot]
            simp only [liveHosts_cons_none, liveHosts_cons_some,
              succHosts_append, failHosts_append]
            rw [ihr, ← Multiset.singleton_add, ← hsum]
            abel

theorem scanPass_no_timeout (env : BatchEnv) (expected : Int) (now : Nat) :
    ∀ (slots slots' : List (Option RunEntry)) su fa,
    scanPass env none expected now slots = .ok (slots', su, fa) →
    noTimeoutFail fa = true := by
  intro slots
  induction slots with
  | nil =>
    intro slots' su fa h
    simp only [scanPass, Except.ok.injEq, Prod.mk.injEq] at h
    rw [← h.2.2]
    rfl
  | cons s rest ih =>
    intro slots' su fa h
    simp only [scanPass] at h
    cases hs : scanSlot env none expected now s with
    | error er => rw [hs] at h; exact absurd h (by simp)
    | ok r =>
      rw [hs] at h
      cases hrec : scanPass env none expected now rest with
      | error er => rw [hrec] at h; exact absurd h (by simp)
      | ok res =>
        obtain ⟨rest', su2, fa2⟩ := res
        rw [hrec] at h
        simp only [Except.ok.injEq, Prod.mk.injEq] at h
        rw [← h.2.2, noTimeoutFail_append]
        have h2 := ih rest' su2 fa2 hrec
        rw [h2, Bool.and_true]
        cases s with
        | none =>
          have hr : r = ⟨none, [], [], false⟩ := by
            have := hs
            simp [scanSlot] at this
            rw [← this]
          subst hr
          rfl
        | some e => exact classifyEntry_no_timeout_rec env expected now e r hs

/-! ## Inner-loop lemmas -/

theorem innerLoop_conserve (env : BatchEnv) (expected : Int) (queueLen : Nat) :
    ∀ (fuel : Nat) (slots : List (Option RunEntry)) succ fail now slots2 succ2 fail2 now2,
    (innerLoop env none expected queueLen fuel slots succ fail now).1
      = some (.ok (slots2, succ2, fail2, now2)) →
    liveHosts slots + succHosts succ + failHosts fail
      = liveHosts slots2 + succHosts succ2 + failHosts fail2 := by
  intro fuel
  induction fuel with
  | zero =>
    intro slots succ fail now slots2 succ2 fail2 now2 h
    simp [innerLoop] at h
  | succ n ih =>
    intro slots succ fail now slots2 succ2 fail2 now2 h
    by_cases hmem : (none : Option RunEntry) ∈ slots
    · simp only [innerLoop, if_pos hmem, Option.some.injEq, Except.ok.injEq,
        Prod.mk.injEq] at h
      obtain ⟨h1, h2, h3, h4⟩ := h
      subst h1; subst h2; subst h3
      rfl
    · simp only [innerLoop, if_neg hmem] at h
      cases hp : scanPass env none expected now slots with
      | error er => rw [hp] at h; simp at h
      | ok res =>
        obtain ⟨slots', su, fa⟩ := res
        rw [hp] at h
        try dsimp only at h
        have ihr := ih slots' (succ ++ su) (fail ++ fa) (now + env.tick)
          slots2 succ2 fail2 now2 h
        have hcons := scanPass_conserve env expected now slots slots' su fa hp
        rw [hcons, ← ihr]
        simp only [succHosts_append, failHosts_append]
        abel

theorem innerLoop_no_timeout (env : BatchEnv) (expected : Int) (queueLen : Nat) :
    ∀ (fuel : Nat) (slots : List (Option RunEntry)) succ fail now slots2 succ2 fail2 now2,
    (innerLoop env none expected queueLen fuel slots succ fail now).1
      = some (.ok (slots2, succ2, fail2, now2)) →
    noTimeoutFail fail = true →
    noTimeoutFail fail2 = true := by
  intro fuel
  induction fuel with
  | zero =>
    intro slots succ fail now slots2 succ2 fail2 now2 h
    simp [innerLoop] at h
  | succ n ih =>
    intro slots succ fail now slots2 succ2 fail2 now2 h hnt
    by_cases hmem : (none : Option RunEntry) ∈ slots
    · simp only [innerLoop, if_pos hmem, Option.some.injEq, Except.ok.injEq,
        Prod.mk.injEq] at h
      obtain ⟨h1, h2, h3, h4⟩ := h
      subst h3
      exact hnt
    · simp only [innerLoop, if_neg hmem] at h
      cases hp : scanPass env none expected now slots with
      | error er => rw [hp] at h; simp at h
      | ok res =>
        obtain ⟨slots', su, fa⟩ := res
        rw [hp] at h
        try dsimp only at h
        refine ih slots' (succ ++ su) (fail ++ fa) (now + env.tick)
          slots2 succ2 fail2 now2 h ?_
        rw [noTimeoutFail_append, hnt,
          scanPass_no_timeout env expected now slots slots' su fa hp]
        rfl

theorem innerLoop_length (env : BatchEnv) (timeout : Option Int)
    (expected : Int) (queueLen : Nat) :
    ∀ (fuel : Nat) (slots : List (Option RunEntry)) succ fail now slots2 succ2 fail2 now2,
    (innerLoop env timeout expected queueLen fuel slots succ fail now).1
      = some (.ok (slots2, succ2, fail2, now2)) →
    slots2.length = slots.length := by
  intro fuel
  induction fuel with
  | zero =>
    intro slots succ fail now slots2 succ2 fail2 now2 h
    simp [innerLoop] at h
  | succ n ih =>
    intro slots succ fail now slots2 succ2 fail2 now2 h
    by_cases hmem : (none : Option RunEntry) ∈ slots
    · simp only [innerLoop, if_pos hmem, Option.some.injEq, Except.ok.injEq,
        Prod.mk.injEq] at h
      obtain ⟨h1, h2, h3, h4⟩ := h
      rw [← h1]
    · simp only [innerLoop, if_neg hmem] at h
      cases hp : scanPass env timeout expected now slots with
      | error er => rw [hp] at h; simp at h
      | ok res =>
        obtain ⟨slots', su, fa⟩ := res
        rw [hp] at h
        try dsimp only at h
        rw [ih slots' (succ ++ su) (fail ++ fa) (now + env.tick)
          slots2 succ2 fail2 now2 h]
        exact scanPass_length env timeout expected now slots slots' su fa hp

theorem liveCount_le_length (l : List (Option RunEntry)) :
    liveCount l ≤ l.length :=
  List.length_filter_le _ l

theorem innerLoop_snaps (env : BatchEnv) (timeout : Option Int)
    (expected : Int) (queueLen : Nat) (maxProcs : Int) :
    ∀ (fuel : Nat) (slots : List (Option RunEntry)) succ fail now,
    (slots.length : Int) ≤ maxProcs →
    ((innerLoop env timeout expected queueLen fuel slots succ fail now).2.all
      (snapWithin maxProcs)) = true := by
  intro fuel
  induction fuel with
  | zero =>
    intro slots succ fail now hlen
    simp [innerLoop]
  | succ n ih =>
    intro slots succ fail now hlen
    by_cases hmem : (none : Option RunEntry) ∈ slots
    · simp [innerLoop, hmem]
    · simp only [innerLoop, if_neg hmem]
      cases hp : scanPass env timeout expected now slots with
      | error er => simp
      | ok res =>
        obtain ⟨slots', su, fa⟩ := res
        try dsimp only
        have hlen' : slots'.length = slots.length :=
          scanPass_length env timeout expected now slots slots' su fa hp
        rw [List.all_cons, Bool.and_eq_true]
        constructor
        · have h1 : liveCount slots' ≤ slots.length := by
            rw [← hlen']
            exact liveCount_le_length slots'
          simp only [snapWithin]
          rw [decide_eq_true_eq]
          refine le_min ?_ ?_
          · exact le_trans (by exact_mod_cast h1) hlen
          · simp
        · exact ih slots' (succ ++ su) (fail ++ fa) (now + env.tick)
            (by rw [hlen']; exact hlen)

/-! ## Refill lemmas -/

theorem liveHosts_append (a b : List (Option RunEntry)) :
    liveHosts (a ++ b) = liveHosts a + liveHosts b := by
  simp [liveHosts, ← Multiset.coe_add]

theorem refillAux_conserve (mp : Int) (now : Nat) :
    ∀ (n : Nat) (cmds : List String) (running : List (Option RunEntry)),
    (↑cmds : Multiset String) + liveHosts running
      = ↑(refillAux mp now n cmds running).1
        + liveHosts (refillAux mp now n cmds running).2.1 := by
  intro n
  induction n with
  | zero => intro cmds running; rfl
  | succ k ih =>
    intro cmds running
    by_cases hg : (running.length : Int) < mp ∧ cmds ≠ []
    · simp only [refillAux, if_pos hg]
      cases hl : cmds.getLast? with
      | none => rfl
      | some host =>
        try dsimp only
        have key : cmds.dropLast ++ [host] = cmds :=
          List.dropLast_append_getLast? host (by rw [hl]; rfl)
        have hsingle : liveHosts [some ⟨host, now⟩] = {host} := rfl
        have ihr := ih cmds.dropLast (running ++ [some ⟨host, now⟩])
        rw [liveHosts_append, hsingle] at ihr
        rw [← ihr]
        conv_lhs => rw [← key]
        rw [← Multiset.coe_add]
        simp only [Multiset.coe_singleton]
        abel
    · simp only [refillAux, if_neg hg]

theorem refillAux_snaps (mp : Int) (now : Nat) :
    ∀ (n : Nat) (cmds : List String) (running : List (Option RunEntry)),
    ((refillAux mp now n cmds running).2.2.all (snapWithin mp)) = true := by
  intro n
  induction n with
  | zero => intro cmds running; rfl
  | succ k ih =>
    intro cmds running
    by_cases hg : (running.length : Int) < mp ∧ cmds ≠ []
    · simp only [refillAux, if_pos hg]
      cases hl : cmds.getLast? with
      | none => rfl
      | some host =>
        try dsimp only
        rw [List.all_cons, Bool.and_eq_true]
        refine ⟨?_, ih cmds.dropLast (running ++ [some ⟨host, now⟩])⟩
        simp only [snapWithin]
        rw [decide_eq_true_eq]
        refine le_min ?_ ?_
        · have h1 : liveCount (running ++ [some ⟨host, now⟩])
              ≤ running.length + 1 := by
            have := liveCount_le_length (running ++ [some ⟨host, now⟩])
            simpa using this
          have h2 : (running.length : Int) + 1 ≤ mp := by
            have := hg.1
            omega
          calc ((liveCount (running ++ [some ⟨host, now⟩]) : Nat) : Int)
              ≤ ((running.length + 1 : Nat) : Int) := by exact_mod_cast h1
            _ ≤ mp := by exact_mod_cast h2
        · simp
    · simp only [refillAux, if_neg hg]
      rfl

theorem refillAux_len (mp : Int) (now : Nat) :
    ∀ (n : Nat) (cmds : List String) (running : List (Option RunEntry)),
    (running.length : Int) ≤ mp →
    ((refillAux mp now n cmds running).2.1.length : Int) ≤ mp := by
  intro n
  induction n with
  | zero => intro cmds running h; exact h
  | succ k ih =>
    intro cmds running h
    by_cases hg : (running.length : Int) < mp ∧ cmds ≠ []
    · simp only [refillAux, if_pos hg]
      cases hl : cmds.getLast? with
      | none => exact h
      | some host =>
        try dsimp only
        refine ih cmds.dropLast (running ++ [some ⟨host, now⟩]) ?_
        have := hg.1
        simp only [List.length_append, List.length_singleton]
        push_cast
        omega
    · simp only [refillAux, if_neg hg]
      exact h

theorem refillAux_stuck (mp : Int) (now : Nat) (hmp : mp ≤ 0) :
    ∀ (n : Nat) (cmds : List String),
    refillAux mp now n cmds [] = (cmds, [], []) := by
  intro n cmds
  cases n with
  | zero => rfl
  | succ k =>
    have hg : ¬ ((([] : List (Option RunEntry)).length : Int) < mp ∧ cmds ≠ []) := by
      intro hc
      have := hc.1
      simp at this
      omega
    simp only [refillAux, if_neg hg]

/-! ## Outer-loop lemmas -/

theorem refill_conserve (mp : Int) (now : Nat) (cmds : List String)
    (running : List (Option RunEntry)) :
    (↑cmds : Multiset String) + liveHosts running
      = ↑(refill mp now cmds running).1
        + liveHosts (refill mp now cmds running).2.1 :=
  refillAux_conserve mp now cmds.length cmds running

theorem refill_snaps (mp : Int) (now : Nat) (cmds : List String)
    (running : List (Option RunEntry)) :
    ((refill mp now cmds running).2.2.all (snapWithin mp)) = true :=
  refillAux_snaps mp now cmds.length cmds running

theorem refill_len (mp : Int) (now : Nat) (cmds : List String)
    (running : List (Option RunEntry))
    (h : (running.length : Int) ≤ mp) :
    (((refill mp now cmds running).2.1.length : Nat) : Int) ≤ mp :=
  refillAux_len mp now cmds.length cmds running h

theorem refill_stuck (mp : Int) (now : Nat) (cmds : List String)
    (hmp : mp ≤ 0) :
    refill mp now cmds [] = (cmds, [], []) :=
  refillAux_stuck mp now hmp cmds.length cmds

theorem innerLoop_empty (env : BatchEnv) (timeout : Option Int)
    (expected : Int) (queueLen : Nat) :
    ∀ (fuel : Nat) succ fail now,
    (innerLoop env timeout expected queueLen fuel [] succ fail now).1 = none
    ∧ ((innerLoop env timeout expected queueLen fuel [] succ fail now).2.all
        (fun s => s.liveCount == 0)) = true := by
  intro fuel
  induction fuel with
  | zero => intro succ fail now; exact ⟨rfl, rfl⟩
  | succ n ih =>
    intro succ fail now
    have hmem : ¬ ((none : Option RunEntry) ∈ ([] : List (Option RunEntry))) := by
      simp
    simp only [innerLoop, if_neg hmem, scanPass]
    try dsimp only
    obtain ⟨ih1, ih2⟩ := ih (succ ++ []) (fail ++ []) (now + env.tick)
    refine ⟨ih1, ?_⟩
    rw [List.all_cons, Bool.and_eq_true]
    exact ⟨rfl, ih2⟩

theorem outerLoop_conserve (env : BatchEnv) (expected : Int) (maxProcs : Int) :
    ∀ (fuel : Nat) (cmds : List String) (running : List (Option RunEntry))
      succ fail now s2 f2,
    (outerLoop env none expected maxProcs fuel cmds running succ fail now).1
      = some (.ok (s2, f2)) →
    (↑cmds : Multiset String) + liveHosts running + succHosts succ + failHosts fail
      = succHosts s2 + failHosts f2 := by
  intro fuel
  induction fuel with
  | zero =>
    intro cmds running succ fail now s2 f2 h
    simp [outerLoop] at h
  | succ n ih =>
    intro cmds running succ fail now s2 f2 h
    rcases hrf : refill maxProcs now cmds running with ⟨cmds', rest2⟩
    rcases hr2 : rest2 with ⟨running', snaps1⟩
    subst hr2
    have hrc := refill_conserve maxProcs now cmds running
    rw [hrf] at hrc
    try dsimp only at hrc
    simp only [outerLoop] at h
    rw [hrf] at h
    try dsimp only at h
    by_cases hstop : running' = [] ∧ cmds' = []
    · rw [if_pos hstop] at h
      simp only [Option.some.injEq, Except.ok.injEq, Prod.mk.injEq] at h
      obtain ⟨hs, hf⟩ := h
      subst hs; subst hf
      have hz : (↑cmds : Multiset String) + liveHosts running = 0 := by
        rw [hrc, hstop.1, hstop.2]
        rfl
      rw [hz]
      abel
    · rw [if_neg hstop] at h
      try dsimp only at h
      cases hin : (innerLoop env none expected cmds'.length n running' succ fail now).1 with
      | none => rw [hin] at h; simp at h
      | some res =>
        cases res with
        | error er => rw [hin] at h; simp at h
        | ok r4 =>
          obtain ⟨slots, succ2, fail2, now2⟩ := r4
          rw [hin] at h
          try dsimp only at h
          have hic := innerLoop_conserve env expected cmds'.length n running'
            succ fail now slots succ2 fail2 now2 hin
          have hoc := ih cmds' (slots.filter (fun s => s.isSome)) succ2 fail2
            now2 s2 f2 h
          rw [liveHosts_filter_isSome] at hoc
          rw [hrc]
          calc (↑cmds' : Multiset String) + liveHosts running'
                + succHosts succ + failHosts fail
              = ↑cmds' + (liveHosts running' + succHosts succ + failHosts fail) := by
                abel
            _ = ↑cmds' + (liveHosts slots + succHosts succ2 + failHosts fail2) := by
                rw [hic]
            _ = ↑cmds' + liveHosts slots + succHosts succ2 + failHosts fail2 := by
                abel
            _ = succHosts s2 + failHosts f2 := hoc

theorem outerLoop_no_timeout (env : BatchEnv) (expected : Int) (maxProcs : Int) :
    ∀ (fuel : Nat) (cmds : List String) (running : List (Option RunEntry))
      succ fail now s2 f2,
    (outerLoop env none expected maxProcs fuel cmds running succ fail now).1
      = some (.ok (s2, f2)) →
    noTimeoutFail fail = true →
    noTimeoutFail f2 = true := by
  intro fuel
  induction fuel with
  | zero =>
    intro cmds running succ fail now s2 f2 h
    simp [outerLoop] at h
  | succ n ih =>
    intro cmds running succ fail now s2 f2 h hnt
    rcases hrf : refill maxProcs now cmds running with ⟨cmds', rest2⟩
    rcases hr2 : rest2 with ⟨running', snaps1⟩
    subst hr2
    simp only [outerLoop] at h
    rw [hrf] at h
    try dsimp only at h
    by_cases hstop : running' = [] ∧ cmds' = []
    · rw [if_pos hstop] at h
      simp only [Option.some.injEq, Except.ok.injEq, Prod.mk.injEq] at h
      rw [← h.2]
      exact hnt
    · rw [if_neg hstop] at h
      try dsimp only at h
      cases hin : (innerLoop env none expected cmds'.length n running' succ fail now).1 with
      | none => rw [hin] at h; simp at h
      | some res =>
        cases res with
        | error er => rw [hin] at h; simp at h
        | ok r4 =>
          obtain ⟨slots, succ2, fail2, now2⟩ := r4
          rw [hin] at h
          try dsimp only at h
          refine ih cmds' (slots.filter (fun s => s.isSome)) succ2 fail2
            now2 s2 f2 h ?_
          exact innerLoop_no_timeout env expected cmds'.length n running'
            succ fail now slots succ2 fail2 now2 hin hnt

theorem outerLoop_snaps (env : BatchEnv) (timeout : Option Int)
    (expected : Int) (maxProcs : Int) :
    ∀ (fuel : Nat) (cmds : List String) (running : List (Option RunEntry))
      succ fail now,
    (running.length : Int) ≤ maxProcs →
    ((outerLoop env timeout expected maxProcs fuel cmds running succ fail now).2.all
      (snapWithin maxProcs)) = true := by
  intro fuel
  induction fuel with
  | zero => intro cmds running succ fail now hlen; rfl
  | succ n ih =>
    intro cmds running succ fail now hlen
    rcases hrf : refill maxProcs now cmds running with ⟨cmds', rest2⟩
    rcases hr2 : rest2 with ⟨running', snaps1⟩
    subst hr2
    have hsn1 : (snaps1.all (snapWithin maxProcs)) = true := by
      have := refill_snaps maxProcs now cmds running
      rw [hrf] at this
      exact this
    have hlen' : ((running'.length : Nat) : Int) ≤ maxProcs := by
      have := refill_len maxProcs now cmds running hlen
      rw [hrf] at this
      exact this
    simp only [outerLoop]
    rw [hrf]
    try dsimp only
    by_cases hstop : running' = [] ∧ cmds' = []
    · rw [if_pos hstop]
      exact hsn1
    · rw [if_neg hstop]
      try dsimp only
      cases hin : (innerLoop env timeout expected cmds'.length n running' succ fail now).1 with
      | none =>
        rw [List.all_append, Bool.and_eq_true]
        exact ⟨hsn1, innerLoop_snaps env timeout expected cmds'.length maxProcs
          n running' succ fail now hlen'⟩
      | some res =>
        cases res with
        | error er =>
          rw [List.all_append, Bool.and_eq_true]
          exact ⟨hsn1, innerLoop_snaps env timeout expected cmds'.length maxProcs
            n running' succ fail now hlen'⟩
        | ok r4 =>
          obtain ⟨slots, succ2, fail2, now2⟩ := r4
          try dsimp only
          rw [List.all_append, List.all_append, Bool.and_eq_true, Bool.and_eq_true]
          refine ⟨⟨hsn1, innerLoop_snaps env timeout expected cmds'.length maxProcs
            n running' succ fail now hlen'⟩, ?_⟩
          refine ih cmds' (slots.filter (fun s => s.isSome)) succ2 fail2 now2 ?_
          have hsl : slots.length = running'.length :=
            innerLoop_length env timeout expected cmds'.length n running'
              succ fail now slots succ2 fail2 now2 hin
          have hfl : (slots.filter (fun s => s.isSome)).length ≤ slots.length :=
            List.length_filter_le _ slots
          calc (((slots.filter (fun s => s.isSome)).length : Nat) : Int)
              ≤ ((slots.length : Nat) : Int) := by exact_mod_cast hfl
            _ = ((running'.length : Nat) : Int) := by exact_mod_cast hsl
            _ ≤ maxProcs := hlen'

theorem outerLoop_diverge (env : BatchEnv) (timeout : Option Int)
    (expected : Int) (maxProcs : Int) (hmp : maxProcs ≤ 0) :
    ∀ (fuel : Nat) (cmds : List String), cmds ≠ [] → ∀ succ fail now,
    (outerLoop env timeout expected maxProcs fuel cmds [] succ fail now).1 = none
    ∧ ((outerLoop env timeout expected maxProcs fuel cmds [] succ fail now).2.all
        (fun s => s.liveCount == 0)) = true := by
  intro fuel
  induction fuel with
  | zero => intro cmds hc succ fail now; exact ⟨rfl, rfl⟩
  | succ n ih =>
    intro cmds hc succ fail now
    have hrf := refill_stuck maxProcs now cmds hmp
    have hstop : ¬ (([] : List (Option RunEntry)) = [] ∧ cmds = []) := by
      intro hx
      exact hc hx.2
    simp only [outerLoop]
    rw [hrf]
    try dsimp only
    rw [if_neg hstop]
    try dsimp only
    obtain ⟨hi1, hi2⟩ := innerLoop_empty env timeout expected cmds.length n succ fail now
    rw [hi1]
    try dsimp only
    refine ⟨rfl, ?_⟩
    rw [List.all_append, Bool.and_eq_true]
    exact ⟨rfl, hi2⟩

/-! ## Claim theorems -/

/-- Claim C1, counterexample.  The claim says that after `run_cmd`
returns, the number of success records plus failure records equals the
number of targets, each target appearing exactly once.  With one target,
an 8-unit command, a 5-unit timeout and a 10-unit polling interval, the
completion branch and the timeout branch both fire at the first poll that
sees the exited process, so the single host is recorded once as a success
and once as a timeout failure: two records for one target. -/
theorem c1_counterexample :
    (runCmd envLateDone 1 (some 5) ["h1"] 0 4).1 =
      some (.ok ([⟨"h1", [], [], 0⟩], [⟨"h1", "Timeout Exceeded", none⟩]))
    ∧ [(⟨"h1", [], [], 0⟩ : SuccessRec)].length
        + [(⟨"h1", "Timeout Exceeded", none⟩ : FailureRec)].length
        ≠ (["h1"] : List String).length :=
  ⟨rfl, by decide⟩

/-- Claim C1 (amended): when the timeout is unset, a completed
`run_cmd` batch produces success and failure records whose hosts are
exactly the host list (as a multiset, hence each target exactly once),
and `|successes| + |failures| = |targets|`. -/
theorem c1_amended (env : BatchEnv) (maxProcs : Int) (hostlist : List String)
    (expected : Int) (fuel : Nat) (s : List SuccessRec) (f : List FailureRec)
    (h : (runCmd env maxProcs none hostlist expected fuel).1 = some (.ok (s, f))) :
    succHosts s + failHosts f = (↑hostlist : Multiset String)
    ∧ s.length + f.length = hostlist.length := by
  have hco := outerLoop_conserve env expected maxProcs fuel hostlist [] [] [] 0 s f h
  simp only [liveHosts_nil, succHosts_nil, failHosts_nil, add_zero] at hco
  refine ⟨hco.symm, ?_⟩
  have hcard := congrArg Multiset.card hco
  simp only [Multiset.card_add, succHosts, failHosts, Multiset.coe_card,
    List.length_map] at hcard
  omega

/-- Witness for `c1_amended`: a two-host batch with immediate exits and
no timeout classifies both hosts exactly once (LIFO launch order makes
"h2" finish first). -/
theorem c1_amended_witness :
    succHosts [⟨"h2", [], [], 0⟩, ⟨"h1", [], [], 0⟩] + failHosts []
      = (↑(["h1", "h2"] : List String) : Multiset String)
    ∧ [(⟨"h2", [], [], 0⟩ : SuccessRec), ⟨"h1", [], [], 0⟩].length
        + ([] : List FailureRec).length
        = (["h1", "h2"] : List String).length :=
  c1_amended envUnitDone 2 ["h1", "h2"] 0 6
    [⟨"h2", [], [], 0⟩, ⟨"h1", [], [], 0⟩] [] rfl

/-- Claim C2 (code bug).  The completion test and the timeout test are
two independent `if` statements (`run_cmd` lines 116 and 123), not
`if`/`elif`: when a finished process is first observed at a time past its
deadline, one observation of one entry appends a success record, then
also kills the already-exited process and appends a timeout failure —
the entry is classified twice. -/
theorem c2_double_classification :
    classifyEntry envLateDone (some 5) 0 10 ⟨"h1", 0⟩ =
      .ok ⟨none, [⟨"h1", [], [], 0⟩],
        [⟨"h1", "Timeout Exceeded", none⟩], true⟩ :=
  rfl

/-- Claim C3, counterexample.  The claim quantifies over every
concurrency ceiling; with `max_procs = -1` (an `int` the Python setter
accepts) and one target, no entry is ever live, yet the very first
sampled instant has `0 > min (-1) 1`, so the bound fails as stated. -/
theorem c3_counterexample :
    ((runCmd envUnitDone (-1) none ["h1"] 0 1).2.all (snapWithin (-1))) = false :=
  rfl

/-- Claim C3 (amended): for every nonnegative concurrency ceiling, at
every sampled instant of a batch the number of live entries is at most
`min max_procs (targets not yet classified)` — in particular the run set
never exceeds `max_procs`. -/
theorem c3_amended (env : BatchEnv) (maxProcs : Int) (timeout : Option Int)
    (hostlist : List String) (expected : Int) (fuel : Nat)
    (h0 : 0 ≤ maxProcs) :
    ((runCmd env maxProcs timeout hostlist expected fuel).2.all
      (snapWithin maxProcs)) = true := by
  show ((⟨0, hostlist.length⟩ ::
      (outerLoop env timeout expected maxProcs fuel hostlist [] [] [] 0).2).all
        (snapWithin maxProcs)) = true
  rw [List.all_cons, Bool.and_eq_true]
  constructor
  · simp only [snapWithin]
    rw [decide_eq_true_eq]
    refine le_min ?_ ?_
    · simpa using h0
    · simp
  · refine outerLoop_snaps env timeout expected maxProcs fuel hostlist [] [] [] 0 ?_
    simpa using h0

/-- Witness for `c3_amended` at a concrete batch. -/
theorem c3_amended_witness :
    ((runCmd envUnitDone 2 none ["h1"] 0 6).2.all (snapWithin 2)) = true :=
  c3_amended envUnitDone 2 none ["h1"] 0 6 (by decide)

/-- Claim C4: with a timeout `t` configured, an entry that is still
running (`poll` returns `None`) once `now ≥ start_timestamp + t` is
killed (`killed = true`), classified as a "Timeout Exceeded" failure with
no exit code, and removed from the run set (`slot = none`). -/
theorem c4_timeout_kill (env : BatchEnv) (t : Int) (expected : Int)
    (now : Nat) (e : RunEntry)
    (hrun : pollAt (env.behavior e.host) e.startTime now = none)
    (hdue : (e.startTime : Int) + t ≤ (now : Int)) :
    classifyEntry env (some t) expected now e =
      .ok ⟨none, [], [⟨e.host, "Timeout Exceeded", none⟩], true⟩ := by
  simp only [classifyEntry]
  try dsimp only
  rw [hrun]
  simp [timeoutDue, hdue]

/-- Witness for `c4_timeout_kill`: a never-exiting process launched at 0
with timeout 1, observed at time 5. -/
theorem c4_timeout_kill_witness :
    classifyEntry envNeverDone (some 1) 0 5 ⟨"h1", 0⟩ =
      .ok ⟨none, [], [⟨"h1", "Timeout Exceeded", none⟩], true⟩ :=
  c4_timeout_kill envNeverDone 1 0 5 ⟨"h1", 0⟩ rfl (by decide)

/-- Claim C5: when the timeout is unset (`None`), a completed batch
contains no failure record of kind "Timeout Exceeded", regardless of how
long any command ran. -/
theorem c5_no_timeout_records (env : BatchEnv) (maxProcs : Int)
    (hostlist : List String) (expected : Int) (fuel : Nat)
    (s : List SuccessRec) (f : List FailureRec)
    (h : (runCmd env maxProcs none hostlist expected fuel).1 = some (.ok (s, f))) :
    noTimeoutFail f = true :=
  outerLoop_no_timeout env expected maxProcs fuel hostlist [] [] [] 0 s f h rfl

/-- Witness for `c5_no_timeout_records`: a batch whose processes exit 0
against `expected_exit_code = 1` records two "Unexpected Return Code"
failures and no timeout failure. -/
theorem c5_no_timeout_records_witness :
    noTimeoutFail [⟨"h2", "Unexpected Return Code", some 0⟩,
      ⟨"h1", "Unexpected Return Code", some 0⟩] = true :=
  c5_no_timeout_records envUnitDone 2 ["h1", "h2"] 1 6 []
    [⟨"h2", "Unexpected Return Code", some 0⟩,
      ⟨"h1", "Unexpected Return Code", some 0⟩] rfl

/-- Claim C6: for any `expected_exit_code`, an entry observed to have
exited with code `rc` yields a success record carrying `rc` exactly when
`rc = expected`; any other observed code yields an "Unexpected Return
Code" failure carrying the actual code (first record appended for that
entry) and no success record. -/
theorem c6_exit_code_boundary (env : BatchEnv) (timeout : Option Int)
    (expected : Int) (now : Nat) (e : RunEntry) (rc : Int)
    (r : ClassifyResult)
    (hpoll : pollAt (env.behavior e.host) e.startTime now = some rc)
    (hok : classifyEntry env timeout expected now e = .ok r) :
    (rc = expected →
      r.newSuccesses.map (fun s => (s.host, s.returncode)) = [(e.host, rc)])
    ∧ (rc ≠ expected →
      r.newSuccesses = []
      ∧ r.newFailures.head? = some ⟨e.host, "Unexpected Return Code", some rc⟩) := by
  simp only [classifyEntry] at hok
  try dsimp only at hok
  rw [hpoll] at hok
  constructor
  · intro hrc
    subst hrc
    cases ha : appendSuccess e.host (env.behavior e.host).outBytes
        (env.behavior e.host).errBytes rc with
    | error er => simp [ha] at hok
    | ok s =>
      obtain ⟨hh, hrc2⟩ := appendSuccess_ok_fields _ _ _ _ _ ha
      by_cases ht : timeoutDue timeout e.startTime now
      · simp [ha, ht] at hok
        rw [← hok]
        simp [hh, hrc2]
      · simp [ha, ht] at hok
        rw [← hok]
        simp [hh, hrc2]
  · intro hrc
    by_cases ht : timeoutDue timeout e.startTime now
    · simp [hrc, ht] at hok
      rw [← hok]
      exact ⟨rfl, rfl⟩
    · simp [hrc, ht] at hok
      rw [← hok]
      exact ⟨rfl, rfl⟩

/-- Witness for `c6_exit_code_boundary`: both sides of the boundary at
concrete inputs (exit code 0 against expected 0, then against
expected 5). -/
theorem c6_exit_code_boundary_witness :
    ([(⟨"h1", [], [], 0⟩ : SuccessRec)].map (fun s => (s.host, s.returncode))
      = [("h1", (0 : Int))])
    ∧ (([] : List SuccessRec) = []
      ∧ ([(⟨"h1", "Unexpected Return Code", some 0⟩ : FailureRec)].head?
          = some ⟨"h1", "Unexpected Return Code", some 0⟩)) :=
  ⟨(c6_exit_code_boundary envUnitDone none 0 0 ⟨"h1", 0⟩ 0
      ⟨none, [⟨"h1", [], [], 0⟩], [], false⟩ rfl rfl).1 rfl,
   (c6_exit_code_boundary envUnitDone none 5 0 ⟨"h1", 0⟩ 0
      ⟨none, [], [⟨"h1", "Unexpected Return Code", some 0⟩], false⟩ rfl rfl).2
     (by decide)⟩

/-- Claim C7: `run_cmd` fully resets the result state — the outcome of a
batch, including the stored result lists afterwards, is independent of
whatever `cmd_successes`/`cmd_failures` held before the call (they are
overwritten with `[]` at entry, so nothing from an earlier batch can
survive into the new result lists). -/
theorem c7_reset_results (p : ParallelSSH) (s0 : Option (List SuccessRec))
    (f0 : Option (List FailureRec)) (env : BatchEnv) (expected : Int)
    (fuel : Nat) :
    runCmdMethod { p with cmdSuccesses := s0, cmdFailures := f0 } env expected fuel
      = runCmdMethod p env expected fuel :=
  rfl

/-- Claim C8: construction succeeds exactly when the configured path is
a regular file and `ssh -V` exits 0 with nonempty output mentioning
"openssh" (case-insensitively); otherwise `__init__` raises before any
batch can run, since `__check_ssh` is called from the constructor. -/
theorem c8_construction_check (maxProcs : Int) (timeout : Option Int)
    (hostlist : List String) (sshBin : String) (e : SshEnv) :
    (∃ p, initParallelSSH maxProcs timeout hostlist sshBin e = .ok p)
    ↔ (e.pathIsFile = true ∧ e.versionExit = 0 ∧ 1 ≤ e.versionOutput.length
       ∧ hasOpensshSub e.versionOutput = true) := by
  have hstep : (∃ p, initParallelSSH maxProcs timeout hostlist sshBin e = .ok p)
      ↔ checkSsh sshBin e = .ok () := by
    unfold initParallelSSH
    cases hc : checkSsh sshBin e with
    | error msg => simp
    | ok u => cases u; simp
  rw [hstep]
  unfold checkSsh
  cases h1 : e.pathIsFile with
  | false => simp [h1]
  | true =>
    by_cases h2 : e.versionExit = 0
    · have hb : (e.versionExit == 0) = true := beq_iff_eq.mpr h2
      rw [hb]
      by_cases h3 : e.versionOutput.length < 1
      · have hlen : ¬ (1 ≤ e.versionOutput.length) := by omega
        simp [h3, hlen]
      · rw [if_neg h3]
        have hlen : 1 ≤ e.versionOutput.length := by omega
        cases h4 : hasOpensshSub e.versionOutput with
        | false => simp [h2, h4, hlen]
        | true => simp [h2, h4, hlen]
    · have hb : (e.versionExit == 0) = false := by
        simp [h2]
      rw [hb]
      simp [h2]

/-- Claim C9, counterexample.  The claim says classification completes
via a deterministic fallback decoding when captured bytes are not valid
UTF-8; in fact `__append_success` decodes strictly, so a completed
process whose stdout is the invalid byte 0xFF raises
`UnicodeDecodeError` and aborts the whole batch. -/
theorem c9_counterexample :
    (runCmd envBadBytes 1 none ["h1"] 0 4).1 = some (.error .decodeError) :=
  rfl

/-- Claim C9 (amended): decoding is strict UTF-8 — when the captured
stdout and stderr bytes are valid UTF-8 the classification completes
deterministically with the decoded text; invalid bytes raise and abort
the batch instead of falling back. -/
theorem c9_strict_decode (host : String) (outB errB : List Nat) (rc : Int)
    (o er : List Nat) (ho : utf8DecodeBytes outB = some o)
    (he : utf8DecodeBytes errB = some er) :
    appendSuccess host outB errB rc = .ok ⟨host, o, er, rc⟩ := by
  unfold appendSuccess
  rw [ho, he]

/-- Witness for `c9_strict_decode`: ASCII byte 0x68 decodes to itself. -/
theorem c9_strict_decode_witness :
    appendSuccess "h1" [0x68] [] 0 = .ok ⟨"h1", [0x68], [], 0⟩ :=
  c9_strict_decode "h1" [0x68] [] 0 [0x68] [] rfl rfl

/-- Claim C10: with `max_procs ≤ 0` and a nonempty host list, `run_cmd`
never launches a process (every sampled instant has zero live entries),
the batch-complete check never succeeds, and the supervisor loop spins
forever — no amount of fuel makes the call return. -/
theorem c10_nontermination (env : BatchEnv) (maxProcs : Int)
    (timeout : Option Int) (hostlist : List String) (expected : Int)
    (hmp : maxProcs ≤ 0) (hh : hostlist ≠ []) (fuel : Nat) :
    (runCmd env maxProcs timeout hostlist expected fuel).1 = none
    ∧ ((runCmd env maxProcs timeout hostlist expected fuel).2.all
        (fun s => s.liveCount == 0)) = true := by
  obtain ⟨h1, h2⟩ := outerLoop_diverge env timeout expected maxProcs hmp
    fuel hostlist hh [] [] 0
  refine ⟨h1, ?_⟩
  show ((⟨0, hostlist.length⟩ ::
      (outerLoop env timeout expected maxProcs fuel hostlist [] [] [] 0).2).all
        (fun s => s.liveCount == 0)) = true
  rw [List.all_cons, Bool.and_eq_true]
  exact ⟨rfl, h2⟩

/-- Witness for `c10_nontermination`: `max_procs = 0`, one host, fuel 5:
the call does not return. -/
theorem c10_nontermination_witness :
    (runCmd envUnitDone 0 none ["h1"] 0 5).1 = none :=
  (c10_nontermination envUnitDone 0 none ["h1"] 0 (by decide) (by decide) 5).1
